import Mathlib

/-!
Shallow embedding of the Lua-like lexer in `src/main.rs`.

Modelling conventions:
* Input bytes are `Nat` values (the Rust code reads a `&String`, i.e. a
  valid-UTF-8 byte buffer; byte values are what the scanner inspects).
* Rust `String`/`Vec<u8>` text values are carried as raw byte lists.  The
  source's `str::from_utf8(..).unwrap()` never fails on reachable values
  (the input is a `String`, and every scan boundary is an ASCII byte), so
  the conversion is modelled as the identity on byte lists.
* `i64` arithmetic wraps: `wrap64` keeps the low 64 bits as a signed value.
* Every source loop is modelled with explicit fuel.  `Res.fuelOut` means the
  fuel ran out (the loop would have kept going), `Res.crash` models a Rust
  panic (the only panic site reachable from the lexer is the slice
  `input.as_bytes()[self.pos..]` in `starts_with` when `pos > len`).
* `f64` values are not interpreted; `TokenValue.float` carries the raw
  literal text, and `f64_parse_ok` models only the accept/reject behaviour
  of Rust's `f64::from_str` grammar.
-/

inductive TokenType : Type
  | And | Goto | Function | End | False | For | Else | ElseIf | Do | Break
  | Local | If | In | Nil | Not | Repeat | Or | Then | True | While | Until
  | Return
  | GreaterOrEqual | Concat | Dots | Equal | LessOrEqual | NotEqual
  | ShiftLeft | ShiftRight | DoubleColon
  | Float | Int | Identifier
  | LeftParenthesis | RightParenthesis | LeftSquareBracket
  | RightSquareBracket | LeftCurlyBracket | RightCurlyBracket
  | Add | Minus | Mul | Div | Mod | Pow | Len
  | Assign | Less | Greater
  | BAnd | BOr | BXor
  | Colon | Comma | Semicolon | Attr
  | SingleComment | MultiLineComment | StringLiteral | UnclosedStringLiteral
  | Eof | Whitespace | Unidentified
  deriving DecidableEq, Repr

inductive TokenValue : Type
  | none
  | int (n : Int)
  | float (raw : List Nat)
  | str (s : List Nat)
  deriving DecidableEq, Repr

/-- Scanner state: the read-only byte buffer and the cursor.  The source
struct also carries the collected `tokens` vector; it is only touched by the
driver, so the driver models it separately. -/
structure Tokenizer : Type where
  input : List Nat
  pos : Nat
  deriving DecidableEq, Repr

/-- Result of a fuelled computation: a value, a Rust panic, or fuel
exhaustion (the source loop would have kept running). -/
inductive Res (α : Type) : Type
  | done (a : α) | crash | fuelOut
  deriving DecidableEq, Repr

def advance (t : Tokenizer) (n : Nat) : Tokenizer :=
  { t with pos := t.pos + n }

/-- Source `byte_at`: the byte at `pos + offset`, or the sentinel `3` when
out of range. -/
def byte_at (t : Tokenizer) (offset : Nat) : Nat :=
  match t.input[t.pos + offset]? with
  | some b => b
  | none => 3

def has_at_least (t : Tokenizer) (n : Nat) : Bool :=
  t.pos + n < t.input.length

/-- Source `starts_with` slices `input[pos..]`, which panics when
`pos > len`; `none` models the panic. -/
def starts_with (t : Tokenizer) (needle : List Nat) : Option Bool :=
  if t.pos ≤ t.input.length then some (needle.isPrefixOf (t.input.drop t.pos))
  else none

def is_eof (t : Tokenizer) : Bool :=
  !(has_at_least t 0)

def is_whitespace (t : Tokenizer) : Bool :=
  byte_at t 0 = 32 || byte_at t 0 = 9 || byte_at t 0 = 11 || byte_at t 0 = 12

/-- Source `is_escape_char`.  Note the first listed byte is `b'\x41'`,
i.e. the letter `A` (65), alongside LF, CR, TAB, backslash, NUL, DEL. -/
def is_escape_char (t : Tokenizer) : Bool :=
  byte_at t 0 = 65 || byte_at t 0 = 10 || byte_at t 0 = 13 ||
  byte_at t 0 = 9 || byte_at t 0 = 92 || byte_at t 0 = 0 || byte_at t 0 = 127

def is_digit (c : Nat) : Bool :=
  48 ≤ c && c ≤ 57

def is_hex_digit (c : Nat) : Bool :=
  (97 ≤ c && c ≤ 102) || (65 ≤ c && c ≤ 70) || is_digit c

def is_alpha (t : Tokenizer) : Bool :=
  (97 ≤ byte_at t 0 && byte_at t 0 ≤ 122) ||
  (65 ≤ byte_at t 0 && byte_at t 0 ≤ 90)

def is_valid_ident_start (t : Tokenizer) : Bool :=
  is_alpha t || byte_at t 0 = 95

def is_valid_ident (t : Tokenizer) : Bool :=
  is_alpha t || is_digit (byte_at t 0) || is_valid_ident_start t

/-- Source `TokenType::convert_to_token_type`: the keyword table. -/
def convert_to_token_type (w : List Nat) : Option TokenType :=
  if w = [97, 110, 100] then some .And
  else if w = [103, 111, 116, 111] then some .Goto
  else if w = [102, 117, 110, 99, 116, 105, 111, 110] then some .Function
  else if w = [101, 110, 100] then some .End
  else if w = [102, 97, 108, 115, 101] then some .False
  else if w = [102, 111, 114] then some .For
  else if w = [101, 108, 115, 101] then some .Else
  else if w = [101, 108, 115, 101, 105, 102] then some .ElseIf
  else if w = [100, 111] then some .Do
  else if w = [98, 114, 101, 97, 107] then some .Break
  else if w = [108, 111, 99, 97, 108] then some .Local
  else if w = [105, 102] then some .If
  else if w = [105, 110] then some .In
  else if w = [110, 105, 108] then some .Nil
  else if w = [110, 111, 116] then some .Not
  else if w = [114, 101, 112, 101, 97, 116] then some .Repeat
  else if w = [111, 114] then some .Or
  else if w = [116, 104, 101, 110] then some .Then
  else if w = [116, 114, 117, 101] then some .True
  else if w = [119, 104, 105, 108, 101] then some .While
  else if w = [117, 110, 116, 105, 108] then some .Until
  else if w = [114, 101, 116, 117, 114, 110] then some .Return
  else none

/-- Signed 64-bit wrapping: keep the low 64 bits of `x` as a value in
`[-2^63, 2^63)`.  Models Rust `i64` overflow (wrapping semantics). -/
def wrap64 (x : Int) : Int :=
  (x + 2 ^ 63) % 2 ^ 64 - 2 ^ 63

/-- One step of the manual radix-16 accumulation in `string_to_int`,
processing byte `b` with state `(decimal, base)`; the source iterates the
bytes right to left, so the whole loop is `List.foldr hex_step (0, 1)`.
Bytes outside `0-9A-Fa-f` add nothing but still scale `base` by 16, exactly
as in the source. -/
def hex_step (b : Nat) (acc : Int × Int) : Int × Int :=
  let dec :=
    if 48 ≤ b ∧ b ≤ 57 then wrap64 (acc.1 + wrap64 (((b : Int) - 48) * acc.2))
    else if 65 ≤ b ∧ b ≤ 70 then wrap64 (acc.1 + wrap64 (((b : Int) - 55) * acc.2))
    else if 97 ≤ b ∧ b ≤ 102 then wrap64 (acc.1 + wrap64 (((b : Int) - 87) * acc.2))
    else acc.1
  (dec, wrap64 (acc.2 * 16))

def strip_sign (s : List Nat) : List Nat :=
  match s with
  | 43 :: r => r
  | 45 :: r => r
  | _ => s

/-- Rust `i64::from_str`: optional sign, one or more ASCII digits, rejected
when the value is outside the `i64` range. -/
def parse_i64 (s : List Nat) : Option Int :=
  let digits := strip_sign s
  let sign : Int := if s.head? = some 45 then -1 else 1
  if digits.isEmpty || !(digits.all is_digit) then none
  else
    let v : Int := sign * digits.foldl (fun a d => 10 * a + ((d : Int) - 48)) 0
    if -(2 ^ 63) ≤ v ∧ v ≤ 2 ^ 63 - 1 then some v else none

def exp_ok (s : List Nat) : Bool :=
  match s with
  | [] => true
  | c :: r =>
    if c = 101 ∨ c = 69 then
      let r' := strip_sign r
      !r'.isEmpty && r'.all is_digit
    else false

/-- The number part of Rust's `f64::from_str` grammar:
`digit+ | digit+ '.' digit* | digit* '.' digit+`, then an optional
`(e|E) sign? digit+` exponent consuming the rest. -/
def f64_number (s : List Nat) : Bool :=
  let d1 := s.takeWhile is_digit
  let r1 := s.dropWhile is_digit
  match r1 with
  | 46 :: r =>
    let d2 := r.takeWhile is_digit
    let r2 := r.dropWhile is_digit
    (!d1.isEmpty || !d2.isEmpty) && exp_ok r2
  | _ => !d1.isEmpty && exp_ok r1

def to_lower (c : Nat) : Nat :=
  if 65 ≤ c ∧ c ≤ 90 then c + 32 else c

/-- Acceptance of Rust's `f64::from_str`: optional sign, then
`inf`/`infinity`/`nan` (case-insensitive) or a number. -/
def f64_parse_ok (s : List Nat) : Bool :=
  let b := strip_sign s
  let low := b.map to_lower
  (low = [105, 110, 102]) ||
  (low = [105, 110, 102, 105, 110, 105, 116, 121]) ||
  (low = [110, 97, 110]) || f64_number b

/-- Source `string_to_int`.  The hex branch fires only on the lowercase
prefix `0x` and runs the manual right-to-left radix-16 accumulation over
all bytes (the prefix contributes nothing); otherwise `i64` parsing. -/
def string_to_int (s : List Nat) : Option TokenValue :=
  if [48, 120].isPrefixOf s then
    some (.int (s.foldr hex_step (0, 1)).1)
  else
    match parse_i64 s with
    | some n => some (.int n)
    | none => none

/-- Source `string_to_float`: the `f64` value itself is not interpreted,
only the parse success; the token value carries the raw text. -/
def string_to_float (s : List Nat) : Option TokenValue :=
  if f64_parse_ok s then some (.float s) else none

/-- Source `string_to_number` (always returns `Ok` in the source, so the
`Result` wrapper is dropped). -/
def string_to_number (s : List Nat) : TokenType × TokenValue :=
  match string_to_int s with
  | some v => (.Int, v)
  | none =>
    match string_to_float s with
    | some v => (.Float, v)
    | none => (.Unidentified, .none)

/-- Loop of `read_single_line_comment`: push bytes until a newline, which
is consumed but not pushed.  At end of input `byte_at` yields the sentinel
`3`, which is not a newline, so the loop never exits there. -/
def single_comment_loop : Nat → Tokenizer → List Nat →
    Res (List Nat × Tokenizer)
  | 0, _, _ => .fuelOut
  | n + 1, t, acc =>
    if byte_at t 0 ≠ 10 then
      single_comment_loop n (advance t 1) (acc ++ [byte_at t 0])
    else .done (acc, advance t 1)

def read_single_line_comment (fuel : Nat) (t : Tokenizer) :
    Res ((TokenType × TokenValue) × Tokenizer) :=
  match single_comment_loop fuel t [] with
  | .done (acc, t') => .done ((.SingleComment, .str acc), t')
  | .crash => .crash
  | .fuelOut => .fuelOut

/-- Loop of `read_multi_line_comment`: skip escape-class bytes, stop after
a literal `]]`, push everything else.  `starts_with` panics when the cursor
has moved past the end of the buffer. -/
def multi_comment_loop : Nat → Tokenizer → List Nat →
    Res (List Nat × Tokenizer)
  | 0, _, _ => .fuelOut
  | n + 1, t, acc =>
    if is_escape_char t then multi_comment_loop n (advance t 1) acc
    else
      match starts_with t [93, 93] with
      | none => .crash
      | some true => .done (acc, advance t 2)
      | some false => multi_comment_loop n (advance t 1) (acc ++ [byte_at t 0])

def read_multi_line_comment (fuel : Nat) (t : Tokenizer) :
    Res ((TokenType × TokenValue) × Tokenizer) :=
  match multi_comment_loop fuel t [] with
  | .done (acc, t') => .done ((.MultiLineComment, .str acc), t')
  | .crash => .crash
  | .fuelOut => .fuelOut

/-- Loop of `read_string` for delimiter `d`.  The backslash branch pushes
the pair and advances, then falls through (the source uses `if`, not
`else if`) to the ordinary byte / delimiter / sentinel tests in the same
iteration. -/
def string_loop (d : Nat) : Nat → Tokenizer → List Nat →
    Res ((TokenType × TokenValue) × Tokenizer)
  | 0, _, _ => .fuelOut
  | n + 1, t, acc =>
    let t1 := if byte_at t 0 = 92 then advance t 2 else t
    let acc1 :=
      if byte_at t 0 = 92 then acc ++ [byte_at t 0, byte_at t 1] else acc
    if byte_at t1 0 ≠ d ∧ byte_at t1 0 ≠ 3 then
      string_loop d n (advance t1 1) (acc1 ++ [byte_at t1 0])
    else if byte_at t1 0 = d then
      .done ((.StringLiteral, .str acc1), advance t1 1)
    else
      .done ((.UnclosedStringLiteral, .none), t1)

/-- Source `read_string`: record the opening delimiter, step past it, scan. -/
def read_string (fuel : Nat) (t : Tokenizer) :
    Res ((TokenType × TokenValue) × Tokenizer) :=
  string_loop (byte_at t 0) fuel (advance t 1) []

/-- Loop of `read_digit`: in decimal mode consume digits and dots, in hex
mode consume hex digits; an `e`/`E` is consumed together with an optional
following sign. -/
def digit_loop (hex : Bool) : Nat → Tokenizer → List Nat →
    Res (List Nat × Tokenizer)
  | 0, _, _ => .fuelOut
  | n + 1, t, acc =>
    if !hex && (is_digit (byte_at t 0) || byte_at t 0 = 46) then
      digit_loop hex n (advance t 1) (acc ++ [byte_at t 0])
    else if hex && is_hex_digit (byte_at t 0) then
      digit_loop hex n (advance t 1) (acc ++ [byte_at t 0])
    else if byte_at t 0 = 101 ∨ byte_at t 0 = 69 then
      let acc' := acc ++ [byte_at t 0]
      let t' := advance t 1
      if byte_at t' 0 = 45 ∨ byte_at t' 0 = 43 then
        digit_loop hex n (advance t' 1) (acc' ++ [byte_at t' 0])
      else digit_loop hex n t' acc'
    else .done (acc, t)

/-- Source `read_digit`: detect a `0x`/`0X` prefix (both cases accepted by
the scanner), collect the literal text, then classify it. -/
def read_digit (fuel : Nat) (t : Tokenizer) :
    Res ((TokenType × TokenValue) × Tokenizer) :=
  let hex := byte_at t 0 = 48 ∧ (byte_at t 1 = 120 ∨ byte_at t 1 = 88)
  let t0 := if hex then advance t 2 else t
  let acc0 : List Nat := if hex then [byte_at t 0, byte_at t 1] else []
  match digit_loop hex fuel t0 acc0 with
  | .done (numStr, t') =>
    match string_to_number numStr with
    | (.Int, v) => .done ((.Int, v), t')
    | (.Float, v) => .done ((.Float, v), t')
    | _ => .done ((.Unidentified, .none), t')
  | .crash => .crash
  | .fuelOut => .fuelOut

/-- The fixed single-byte punctuation table of `read_other_tokens`. -/
def punct_token (b : Nat) : Option TokenType :=
  if b = 59 then some .Semicolon
  else if b = 44 then some .Comma
  else if b = 38 then some .BAnd
  else if b = 124 then some .BOr
  else if b = 40 then some .LeftParenthesis
  else if b = 41 then some .RightParenthesis
  else if b = 93 then some .RightSquareBracket
  else if b = 123 then some .LeftCurlyBracket
  else if b = 125 then some .RightCurlyBracket
  else if b = 43 then some .Add
  else if b = 42 then some .Mul
  else if b = 47 then some .Div
  else if b = 37 then some .Mod
  else if b = 94 then some .Pow
  else if b = 35 then some .Len
  else none

/-- Identifier loop of `read_other_tokens`: maximal run of identifier
bytes after the already-consumed start byte. -/
def ident_loop : Nat → Tokenizer → List Nat → Res (List Nat × Tokenizer)
  | 0, _, _ => .fuelOut
  | n + 1, t, acc =>
    if is_valid_ident t then ident_loop n (advance t 1) (acc ++ [byte_at t 0])
    else .done (acc, t)

/-- Source `read_other_tokens`: fixed punctuation, then identifiers and
keywords; anything else is `Unidentified` with the cursor left unchanged. -/
def read_other_tokens (fuel : Nat) (t : Tokenizer) :
    Res ((TokenType × TokenValue) × Tokenizer) :=
  match punct_token (byte_at t 0) with
  | some tt => .done ((tt, .none), advance t 1)
  | none =>
    if is_valid_ident_start t then
      match ident_loop fuel (advance t 1) [byte_at t 0] with
      | .done (w, t') =>
        match convert_to_token_type w with
        | some tt => .done ((tt, .none), t')
        | none => .done ((.Identifier, .str w), t')
      | .crash => .crash
      | .fuelOut => .fuelOut
    else .done ((.Unidentified, .none), t)

/-- Helper reflecting a `starts_with` test at a dispatch site: panic
propagates, otherwise pick the hit or miss continuation. -/
def if_starts {α : Type} (t : Tokenizer) (needle : List Nat)
    (hit other : Res α) : Res α :=
  match starts_with t needle with
  | none => .crash
  | some true => hit
  | some false => other

/-- Source `next_token`: the dispatch, with the source's guard and arm
order preserved (in particular the `..` test precedes the `...` test). -/
def next_token (fuel : Nat) (t : Tokenizer) :
    Res ((TokenType × TokenValue) × Tokenizer) :=
  if is_whitespace t then .done ((.Whitespace, .none), advance t 1)
  else if is_digit (byte_at t 0) then read_digit fuel t
  else if is_escape_char t then .done ((.Whitespace, .none), advance t 1)
  else if byte_at t 0 = 34 ∨ byte_at t 0 = 39 then read_string fuel t
  else if byte_at t 0 = 62 then
    if_starts t [62, 61] (.done ((.GreaterOrEqual, .none), advance t 2))
      (if_starts t [62, 62] (.done ((.ShiftRight, .none), advance t 2))
        (.done ((.Greater, .none), advance t 1)))
  else if byte_at t 0 = 46 then
    if_starts t [46, 46] (.done ((.Concat, .none), advance t 2))
      (if_starts t [46, 46, 46] (.done ((.Dots, .none), advance t 3))
        (if is_digit (byte_at t 1) then read_digit fuel t
         else .done ((.Attr, .none), advance t 1)))
  else if byte_at t 0 = 61 then
    if_starts t [61, 61] (.done ((.Concat, .none), advance t 2))
      (.done ((.Assign, .none), advance t 1))
  else if byte_at t 0 = 60 then
    if_starts t [60, 61] (.done ((.LessOrEqual, .none), advance t 2))
      (if_starts t [60, 60] (.done ((.ShiftLeft, .none), advance t 2))
        (.done ((.Less, .none), advance t 1)))
  else if byte_at t 0 = 126 then
    if_starts t [126, 61] (.done ((.NotEqual, .none), advance t 2))
      (.done ((.BXor, .none), advance t 1))
  else if byte_at t 0 = 58 then
    if_starts t [58, 58] (.done ((.DoubleColon, .none), advance t 2))
      (.done ((.Colon, .none), advance t 1))
  else if byte_at t 0 = 91 then
    if_starts t [91, 91] (read_multi_line_comment fuel (advance t 2))
      (.done ((.LeftSquareBracket, .none), advance t 1))
  else if byte_at t 0 = 45 then
    if_starts t [45, 45, 91, 91] (read_multi_line_comment fuel (advance t 4))
      (if_starts t [45, 45] (read_single_line_comment fuel (advance t 2))
        (.done ((.Minus, .none), advance t 1)))
  else read_other_tokens fuel t

/-- Following the spec's words, the numeric value of one hex digit byte
(zero elsewhere); used only to state what the radix-16 accumulation is
claimed to compute. -/
def hex_digit_val (b : Nat) : Int :=
  if 48 ≤ b ∧ b ≤ 57 then (b : Int) - 48
  else if 65 ≤ b ∧ b ≤ 70 then (b : Int) - 55
  else if 97 ≤ b ∧ b ≤ 102 then (b : Int) - 87
  else 0

/-- Following the spec's words, the mathematical radix-16 value of a hex
digit string (most significant digit first); the claim asserts the code
computes this value modulo 2^64. -/
def hex_value_of_digits (ds : List Nat) : Int :=
  ds.foldl (fun a d => 16 * a + hex_digit_val d) 0

/-- The driver loop of `main`: call `next_token` until the input is
exhausted, then append the `Eof` token. -/
def run_tokenizer : Nat → Tokenizer → Res (List (TokenType × TokenValue))
  | 0, _ => .fuelOut
  | n + 1, t =>
    if is_eof t then .done [(.Eof, .none)]
    else
      match next_token (n + 1) t with
      | .done (tok, t') =>
        match run_tokenizer n t' with
        | .done toks => .done (tok :: toks)
        | .crash => .crash
        | .fuelOut => .fuelOut
      | .crash => .crash
      | .fuelOut => .fuelOut

/-! ## Basic facts about the scanner primitives -/

theorem byte_at_real {t : Tokenizer} {off b : Nat}
    (h : byte_at t off = b) (hb : b ≠ 3) :
    t.input[t.pos + off]? = some b := by
  unfold byte_at at h
  split at h
  · rename_i c hg
    rw [hg, h]
  · exact absurd h.symm hb

theorem byte_at_sentinel {input : List Nat} {pos off : Nat}
    (h : input.length ≤ pos + off) :
    byte_at ⟨input, pos⟩ off = 3 := by
  unfold byte_at
  rw [List.getElem?_eq_none h]

theorem byte_at_ne_of_not_mem {input : List Nat} {pos b : Nat}
    (hb : b ≠ 3) (h : b ∉ input.drop pos) :
    byte_at ⟨input, pos⟩ 0 ≠ b := by
  intro hc
  have hg := byte_at_real hc hb
  apply h
  have h0 : (input.drop pos)[0]? = some b := by
    rw [List.getElem?_drop]
    simpa using hg
  exact List.getElem?_mem h0

theorem not_mem_drop_succ {input : List Nat} {pos b : Nat}
    (h : b ∉ input.drop pos) : b ∉ input.drop (pos + 1) := by
  intro hmem
  apply h
  have hdd : input.drop (pos + 1) = (input.drop pos).drop 1 := by
    rw [List.drop_drop]
  rw [hdd] at hmem
  exact List.drop_subset 1 _ hmem

/-! ## Wrapping arithmetic -/

theorem wrap64_modeq (a : Int) : wrap64 a % 2 ^ 64 = a % 2 ^ 64 := by
  unfold wrap64
  have h1 : (a + 2 ^ 63) % 2 ^ 64 - 2 ^ 63 ≡ a + 2 ^ 63 - 2 ^ 63 [ZMOD (2 : Int) ^ 64] := by
    exact Int.ModEq.sub_right _ (Int.emod_emod_of_dvd _ dvd_rfl)
  simpa using h1

theorem wrap64_eq_of_modeq {a b : Int} (h : a % 2 ^ 64 = b % 2 ^ 64) :
    wrap64 a = wrap64 b := by
  unfold wrap64
  have : (a + 2 ^ 63) % 2 ^ 64 = (b + 2 ^ 63) % 2 ^ 64 :=
    Int.ModEq.add_right _ h
  rw [this]

theorem wrap64_add_left (a b : Int) : wrap64 (wrap64 a + b) = wrap64 (a + b) :=
  wrap64_eq_of_modeq (by
    rw [Int.add_emod, wrap64_modeq, ← Int.add_emod])

theorem wrap64_add_right (a b : Int) : wrap64 (a + wrap64 b) = wrap64 (a + b) :=
  wrap64_eq_of_modeq (by
    rw [Int.add_emod, wrap64_modeq, ← Int.add_emod])

theorem wrap64_mul_left (a b : Int) : wrap64 (wrap64 a * b) = wrap64 (a * b) :=
  wrap64_eq_of_modeq (by
    rw [Int.mul_emod, wrap64_modeq, ← Int.mul_emod])

theorem wrap64_mul_right (a b : Int) : wrap64 (a * wrap64 b) = wrap64 (a * b) :=
  wrap64_eq_of_modeq (by
    rw [Int.mul_emod, wrap64_modeq, ← Int.mul_emod])

theorem wrap64_idem (a : Int) : wrap64 (wrap64 a) = wrap64 a := by
  have := wrap64_add_left a 0
  simpa using this

/-! ## C1: the Unidentified dispatch branch does not advance the cursor -/

/-- C1: refuted evaluation.  The claim says the `Unidentified` branch of
dispatch still advances the cursor by at least one byte.  On the one-byte
input `"@"` (0x40), which matches no grammar, `next_token` emits
`Unidentified` with the cursor still at 0: the driver's `while !is_eof`
loop therefore never terminates on this input. -/
theorem c1_unidentified_branch_no_advance :
    next_token 1 ⟨[64], 0⟩ = .done ((.Unidentified, .none), ⟨[64], 0⟩) := rfl

/-! ## C2: the three-dot operator -/

/-- C2: refuted evaluation.  The claim (and the source's own
`Dots, // ...` comment) says an input starting with `...` lexes as `Dots`
advancing 3 bytes.  Because the source tests `starts_with("..")` before
`starts_with("...")`, the input `"..."` lexes as `Concat` advancing 2
bytes; the `Dots` arm is unreachable. -/
theorem c2_three_dots_lexes_as_concat :
    next_token 1 ⟨[46, 46, 46], 0⟩ =
      .done ((.Concat, .none), ⟨[46, 46, 46], 2⟩) := rfl

/-! ## C10: the EOF sentinel value is not out of band -/

/-- C10: confirmed.  The input `"\"a\x03b\""` contains a literal 0x03 byte
inside the string body with two more bytes after it; the string scan stops
at that byte and emits `UnclosedStringLiteral` with the cursor at 2, even
though unread input remains (2 < 5). -/
theorem c10_sentinel_byte_stops_string_scan :
    next_token 10 ⟨[34, 97, 3, 98, 34], 0⟩ =
      .done ((.UnclosedStringLiteral, .none), ⟨[34, 97, 3, 98, 34], 2⟩) ∧
    2 < ([34, 97, 3, 98, 34] : List Nat).length :=
  ⟨rfl, by decide⟩

/-! ## C5: the scanner position invariant -/

/-- C5: counterexample.  The claim says `position ≤ len(input)` holds at
all times.  Lexing the two-byte input `"\""` followed by a lone backslash
ends with the cursor at 3, strictly beyond the input length 2: the string
scanner's backslash branch consumed the out-of-range lookahead. -/
theorem c5_counterexample_pos_exceeds_length :
    next_token 10 ⟨[34, 92], 0⟩ =
      .done ((.UnclosedStringLiteral, .none), ⟨[34, 92], 3⟩) ∧
    ([34, 92] : List Nat).length < 3 :=
  ⟨rfl, by decide⟩

/-! ## C6: the escape byte class -/

/-- C6: counterexample.  The claim says the escape class is exactly the
six bytes LF, CR, TAB, backslash, NUL, DEL, and that no byte outside this
class and the whitespace class is skipped.  The byte 65 (the letter `A`,
written `b'\x41'` in the source) is outside both claimed classes, yet
`next_token` skips it and emits `Whitespace`. -/
theorem c6_counterexample_A_skipped_as_whitespace :
    next_token 1 ⟨[65], 0⟩ = .done ((.Whitespace, .none), ⟨[65], 1⟩) ∧
    is_whitespace ⟨[65], 0⟩ = false ∧
    (65 : Nat) ∉ [10, 13, 9, 92, 0, 127] :=
  ⟨rfl, rfl, by decide⟩

/-! ## C8: string termination -/

/-- C8: counterexample.  The claim says the scan stops exactly when the
opening delimiter recurs unescaped.  In `"\"\\\\\\\"x"` the second quote
(index 4) is preceded by an odd run of three backslashes, so it is escaped
in the claim's sense, yet the scan closes there with
`StringLiteral("\\\\\\")`: the source's backslash branch is an `if` that
falls through, so after consuming one escape pair it consumes the third
backslash as an ordinary byte. -/
theorem c8_counterexample_escaped_delimiter_closes :
    next_token 10 ⟨[34, 92, 92, 92, 34, 120], 0⟩ =
      .done ((.StringLiteral, .str [92, 92, 92]),
        ⟨[34, 92, 92, 92, 34, 120], 5⟩) ∧
    (([34, 92, 92, 92, 34, 120] : List Nat).take 4).reverse.takeWhile
      (fun b => b = 92) = [92, 92, 92] :=
  ⟨rfl, by decide⟩

/-! ## C9: unterminated block comments -/

/-- C9: counterexample.  The claim says a block comment reaching end of
input without `]]` emits `MultiLineComment`.  On `"[[x"` the comment scan
instead panics: after consuming the sentinel the cursor reaches
`len + 1` and `starts_with` slices `input[pos..]` out of range
(`Res.crash` models the panic), so no token is emitted. -/
theorem c9_counterexample_unterminated_comment_crashes :
    next_token 10 ⟨[91, 91, 120], 0⟩ = .crash := rfl

/-! ## C4: single-line comments -/

theorem single_loop_diverges (input : List Nat) :
    ∀ (fuel pos : Nat) (acc : List Nat), 10 ∉ input.drop pos →
      single_comment_loop fuel ⟨input, pos⟩ acc = .fuelOut := by
  intro fuel
  induction fuel with
  | zero => intro pos acc _; rfl
  | succ n ih =>
    intro pos acc h
    have hb : byte_at ⟨input, pos⟩ 0 ≠ 10 :=
      byte_at_ne_of_not_mem (by decide) h
    simp only [single_comment_loop, if_pos hb]
    exact ih (pos + 1) _ (not_mem_drop_succ h)

/-- C4: the code is wrong where the claim says the comment scan stops at
end of input.  For any cursor position after which the input contains no
newline byte, `read_single_line_comment` never returns for any amount of
fuel: at end of input `byte_at` yields the sentinel 3, which differs from
`\n`, so the loop pushes it and advances forever (the in-range newline-free
bytes are likewise pushed).  The claim's stated behaviour — stop at EOF and
emit `SingleComment` — never happens. -/
theorem c4_comment_without_newline_never_returns :
    ∀ (input : List Nat) (pos : Nat), 10 ∉ input.drop pos →
      ∀ (fuel : Nat), read_single_line_comment fuel ⟨input, pos⟩ = .fuelOut := by
  intro input pos h fuel
  unfold read_single_line_comment
  rw [single_loop_diverges input fuel pos [] h]

/-- C4 witness: the concrete comment body of `"--x"` (cursor 2, after the
`--` prefix) contains no newline, and the scan indeed returns no token. -/
theorem c4_comment_without_newline_never_returns_witness :
    read_single_line_comment 7 ⟨[45, 45, 120], 2⟩ = .fuelOut :=
  c4_comment_without_newline_never_returns [45, 45, 120] 2 (by decide) 7

theorem is_escape_char_of_sentinel {t : Tokenizer} (h : byte_at t 0 = 3) :
    is_escape_char t = false := by
  unfold is_escape_char
  rw [h]
  decide

theorem multi_loop_no_close (input : List Nat)
    (hnc : ∀ i, i < input.length → [93, 93].isPrefixOf (input.drop i) = false) :
    ∀ (fuel pos : Nat) (acc : List Nat), pos ≤ input.length + 1 →
      input.length + 2 ≤ fuel + pos →
      multi_comment_loop fuel ⟨input, pos⟩ acc = .crash := by
  intro fuel
  induction fuel with
  | zero => intro pos acc h1 h2; omega
  | succ n ih =>
    intro pos acc h1 h2
    by_cases hp : pos ≤ input.length
    · simp only [multi_comment_loop]
      by_cases hesc : is_escape_char ⟨input, pos⟩
      · rw [if_pos hesc]
        exact ih (pos + 1) acc (by omega) (by omega)
      · rw [if_neg hesc]
        have hsw : starts_with ⟨input, pos⟩ [93, 93] = some false := by
          unfold starts_with
          rw [if_pos hp]
          rcases Nat.lt_or_ge pos input.length with hlt | hge
          · rw [hnc pos hlt]
          · have hpos : pos = input.length := by omega
            subst hpos
            rw [List.drop_length]
            rfl
        rw [hsw]
        exact ih (pos + 1) _ (by omega) (by omega)
    · have hb3 : byte_at ⟨input, pos⟩ 0 = 3 := byte_at_sentinel (by simp; omega)
      simp only [multi_comment_loop]
      rw [if_neg (by rw [is_escape_char_of_sentinel hb3]; exact Bool.false_ne_true)]
      have hsw : starts_with ⟨input, pos⟩ [93, 93] = none := by
        unfold starts_with
        rw [if_neg (by simp; omega)]
      rw [hsw]

/-- C9: amended and proved.  A block comment scan whose input contains no
occurrence of `]]` does not emit `MultiLineComment` when it reaches the end
of the input: the loop consumes the sentinel, moves the cursor to
`len + 1`, and the next `starts_with` call slices `input[pos..]` out of
range — a panic (`Res.crash`), so no token of any kind results. -/
theorem c9_unterminated_comment_panics :
    ∀ (input : List Nat) (pos fuel : Nat),
      (∀ i, i < input.length → [93, 93].isPrefixOf (input.drop i) = false) →
      pos ≤ input.length + 1 →
      input.length + 2 ≤ fuel + pos →
      read_multi_line_comment fuel ⟨input, pos⟩ = .crash := by
  intro input pos fuel hnc h1 h2
  unfold read_multi_line_comment
  rw [multi_loop_no_close input hnc fuel pos [] h1 h2]

/-- C9 witness: on `"[[x"` with the cursor past the `[[` opener, the
comment scan panics. -/
theorem c9_unterminated_comment_panics_witness :
    read_multi_line_comment 3 ⟨[91, 91, 120], 2⟩ = .crash :=
  c9_unterminated_comment_panics [91, 91, 120] 2 3 (by decide) (by decide)
    (by decide)

/-! ## C7: hex literals -/

theorem hex_foldl_aux (ds : List Nat) :
    ∀ (a : Int), ds.foldl (fun x y => 16 * x + hex_digit_val y) a =
      a * 16 ^ ds.length + ds.foldl (fun x y => 16 * x + hex_digit_val y) 0 := by
  induction ds with
  | nil => intro a; simp
  | cons d t ih =>
    intro a
    simp only [List.foldl_cons, List.length_cons]
    rw [ih (16 * a + hex_digit_val d), ih (16 * 0 + hex_digit_val d)]
    ring

theorem hex_value_cons (d : Nat) (ds : List Nat) :
    hex_value_of_digits (d :: ds) =
      hex_digit_val d * 16 ^ ds.length + hex_value_of_digits ds := by
  unfold hex_value_of_digits
  rw [List.foldl_cons, hex_foldl_aux]
  ring

theorem hex_accum_digits :
    ∀ (ds : List Nat), (∀ b ∈ ds, is_hex_digit b = true) →
      ds.foldr hex_step (0, 1) =
        (wrap64 (hex_value_of_digits ds), wrap64 (16 ^ ds.length)) := by
  intro ds
  induction ds with
  | nil =>
    intro _
    simp only [List.foldr_nil, List.length_nil, pow_zero]
    decide
  | cons d t ih =>
    intro hall
    have hd : is_hex_digit d = true := hall d (List.mem_cons_self d t)
    have ht : ∀ b ∈ t, is_hex_digit b = true :=
      fun b hb => hall b (List.mem_cons_of_mem d hb)
    rw [List.foldr_cons, ih ht]
    have hcase : (48 ≤ d ∧ d ≤ 57) ∨ (65 ≤ d ∧ d ≤ 70) ∨ (97 ≤ d ∧ d ≤ 102) := by
      unfold is_hex_digit is_digit at hd
      simp at hd
      omega
    have hbase : wrap64 (wrap64 ((16 : Int) ^ t.length) * 16) =
        wrap64 (16 ^ (t.length + 1)) := by
      rw [wrap64_mul_left, pow_succ]
    have hval : ∀ (c : Int), hex_digit_val d = (d : Int) - c →
        wrap64 (wrap64 (hex_value_of_digits t) +
          wrap64 (((d : Int) - c) * wrap64 ((16 : Int) ^ t.length))) =
        wrap64 (hex_value_of_digits (d :: t)) := by
      intro c hc
      rw [wrap64_mul_right, wrap64_add_left, wrap64_add_right,
        hex_value_cons, hc]
      congr 1
      ring
    rcases hcase with h1 | h2 | h3
    · have hv : hex_digit_val d = (d : Int) - 48 := by
        unfold hex_digit_val
        rw [if_pos h1]
      simp only [hex_step, List.length_cons]
      rw [if_pos h1, hbase, hval 48 hv]
    · have hv : hex_digit_val d = (d : Int) - 55 := by
        unfold hex_digit_val
        rw [if_neg (by omega), if_pos h2]
      simp only [hex_step, List.length_cons]
      rw [if_neg (by omega), if_pos h2, hbase, hval 55 hv]
    · have hv : hex_digit_val d = (d : Int) - 87 := by
        unfold hex_digit_val
        rw [if_neg (by omega), if_neg (by omega), if_pos h3]
      simp only [hex_step, List.length_cons]
      rw [if_neg (by omega), if_neg (by omega), if_pos h3, hbase, hval 87 hv]

/-- C7: the code is wrong for the uppercase `0X` prefix; the lowercase
part of the claim is proved.  Part 1: for every all-hex-digit string after
a lowercase `0x` prefix, `string_to_int` yields `Int` carrying the
radix-16 value reduced to the low 64 bits (`wrap64`), with no error.
Part 2: lexing `"0x1A"` yields `Int(26)` advancing 4 bytes.  Part 3 (the
refutation): lexing `"0X1A"` — which the claim also covers — yields
`Unidentified`, because `string_to_int` tests only for the lowercase
prefix `"0x"` even though `read_digit` accepted `0X`, and both numeric
parses then fail. -/
theorem c7_hex_radix16 :
    (∀ (ds : List Nat), (∀ b ∈ ds, is_hex_digit b = true) →
      string_to_int (48 :: 120 :: ds) =
        some (.int (wrap64 (hex_value_of_digits ds)))) ∧
    next_token 10 ⟨[48, 120, 49, 65], 0⟩ =
      .done ((.Int, .int 26), ⟨[48, 120, 49, 65], 4⟩) ∧
    next_token 10 ⟨[48, 88, 49, 65], 0⟩ =
      .done ((.Unidentified, .none), ⟨[48, 88, 49, 65], 4⟩) := by
  refine ⟨?_, by set_option maxRecDepth 4000 in decide, rfl⟩
  intro ds hds
  have hpre : ([48, 120] : List Nat).isPrefixOf (48 :: 120 :: ds) = true := by
    simp [List.isPrefixOf]
  have h120 : ∀ p : Int × Int, hex_step 120 p = (p.1, wrap64 (p.2 * 16)) := by
    intro p
    simp only [hex_step]
    rw [if_neg (by omega), if_neg (by omega), if_neg (by omega)]
  have h48 : ∀ p : Int × Int, hex_step 48 p =
      (wrap64 (p.1 + wrap64 ((((48 : Nat) : Int) - 48) * p.2)),
        wrap64 (p.2 * 16)) := by
    intro p
    simp only [hex_step]
    rw [if_pos (by omega)]
  have hw0 : wrap64 0 = 0 := by decide
  unfold string_to_int
  rw [if_pos hpre, List.foldr_cons, List.foldr_cons, hex_accum_digits ds hds,
    h120, h48]
  norm_num [hw0, wrap64_add_left]
  exact wrap64_idem _

/-- C7 witness: the general lowercase-hex theorem applied to the digit
string `"1A"`. -/
theorem c7_hex_radix16_witness :
    string_to_int [48, 120, 49, 65] =
      some (.int (wrap64 (hex_value_of_digits [49, 65]))) :=
  c7_hex_radix16.1 [49, 65] (by decide)

/-! ## C8: string scan stopping behaviour -/

theorem string_loop_iter_spec {d : Nat} (hd : d ≠ 3) {m : Nat}
    (ih : ∀ (t : Tokenizer) (acc : List Nat) (k : TokenType) (v : TokenValue)
      (t2 : Tokenizer), string_loop d m t acc = .done ((k, v), t2) →
      t2.input = t.input ∧
      ((k = .StringLiteral ∧ (∃ body, v = .str body) ∧ 1 ≤ t2.pos ∧
         t2.input[t2.pos - 1]? = some d) ∨
       (k = .UnclosedStringLiteral ∧ v = .none ∧ byte_at t2 0 = 3)))
    (t1 : Tokenizer) (acc1 : List Nat) (k : TokenType) (v : TokenValue)
    (t2 : Tokenizer)
    (h : (if byte_at t1 0 ≠ d ∧ byte_at t1 0 ≠ 3 then
            string_loop d m (advance t1 1) (acc1 ++ [byte_at t1 0])
          else if byte_at t1 0 = d then
            .done ((.StringLiteral, .str acc1), advance t1 1)
          else .done ((.UnclosedStringLiteral, .none), t1)) =
          .done ((k, v), t2)) :
    t2.input = t1.input ∧
    ((k = .StringLiteral ∧ (∃ body, v = .str body) ∧ 1 ≤ t2.pos ∧
       t2.input[t2.pos - 1]? = some d) ∨
     (k = .UnclosedStringLiteral ∧ v = .none ∧ byte_at t2 0 = 3)) := by
  by_cases hcont : byte_at t1 0 ≠ d ∧ byte_at t1 0 ≠ 3
  · rw [if_pos hcont] at h
    have hres := ih (advance t1 1) (acc1 ++ [byte_at t1 0]) k v t2 h
    exact ⟨hres.1, hres.2⟩
  · rw [if_neg hcont] at h
    by_cases hdel : byte_at t1 0 = d
    · rw [if_pos hdel] at h
      injection h with h1
      injection h1 with hpair ht2
      injection hpair with hk hv
      subst hk
      subst hv
      subst ht2
      refine ⟨rfl, .inl ⟨rfl, ⟨acc1, rfl⟩, ?_, ?_⟩⟩
      · exact Nat.le_add_left 1 t1.pos
      · have := byte_at_real hdel hd
        simpa [advance] using this
    · rw [if_neg hdel] at h
      injection h with h1
      injection h1 with hpair ht2
      injection hpair with hk hv
      subst hk
      subst hv
      subst ht2
      have hb3 : byte_at t1 0 = 3 := by
        push_neg at hcont
        exact hcont hdel
      exact ⟨rfl, .inr ⟨rfl, rfl, hb3⟩⟩

theorem string_loop_spec {d : Nat} (hd : d ≠ 3) :
    ∀ (n : Nat) (t : Tokenizer) (acc : List Nat) (k : TokenType)
      (v : TokenValue) (t2 : Tokenizer),
      string_loop d n t acc = .done ((k, v), t2) →
      t2.input = t.input ∧
      ((k = .StringLiteral ∧ (∃ body, v = .str body) ∧ 1 ≤ t2.pos ∧
         t2.input[t2.pos - 1]? = some d) ∨
       (k = .UnclosedStringLiteral ∧ v = .none ∧ byte_at t2 0 = 3)) := by
  intro n
  induction n with
  | zero =>
    intro t acc k v t2 h
    exact absurd h (by simp [string_loop])
  | succ m ih =>
    intro t acc k v t2 h
    simp only [string_loop] at h
    by_cases hbs : byte_at t 0 = 92
    · rw [if_pos hbs, if_pos hbs] at h
      have hres := string_loop_iter_spec hd ih (advance t 2)
        (acc ++ [byte_at t 0, byte_at t 1]) k v t2 h
      exact ⟨hres.1, hres.2⟩
    · rw [if_neg hbs, if_neg hbs] at h
      exact string_loop_iter_spec hd ih t acc k v t2 h

/-- C8: amended and proved.  The two worked examples hold, and in general
a string scan started at an opening quote that returns a token stops in
exactly one of two ways: `StringLiteral` carrying accumulated text with
the byte just before the final cursor equal to the opening delimiter, or
`UnclosedStringLiteral` with no value where the current byte reads as the
sentinel 3.  (The claim's stronger "unescaped" qualification is refuted by
`c8_counterexample_escaped_delimiter_closes`: the fall-through backslash
branch lets a delimiter after an odd backslash run close the string.) -/
theorem c8_string_stop_characterization :
    read_string 10 ⟨[34, 104, 101, 108, 108, 111, 34], 0⟩ =
      .done ((.StringLiteral, .str [104, 101, 108, 108, 111]),
        ⟨[34, 104, 101, 108, 108, 111, 34], 7⟩) ∧
    read_string 10 ⟨[34, 104, 101, 108, 108, 111], 0⟩ =
      .done ((.UnclosedStringLiteral, .none),
        ⟨[34, 104, 101, 108, 108, 111], 6⟩) ∧
    (∀ (fuel : Nat) (t : Tokenizer) (k : TokenType) (v : TokenValue)
      (t2 : Tokenizer), byte_at t 0 = 34 ∨ byte_at t 0 = 39 →
      read_string fuel t = .done ((k, v), t2) →
      t2.input = t.input ∧
      ((k = .StringLiteral ∧ (∃ body, v = .str body) ∧ 1 ≤ t2.pos ∧
         t2.input[t2.pos - 1]? = some (byte_at t 0)) ∨
       (k = .UnclosedStringLiteral ∧ v = .none ∧ byte_at t2 0 = 3))) := by
  refine ⟨rfl, rfl, ?_⟩
  intro fuel t k v t2 hq h
  have hd : byte_at t 0 ≠ 3 := by rcases hq with h34 | h39 <;> omega
  unfold read_string at h
  have hres := string_loop_spec hd fuel (advance t 1) [] k v t2 h
  exact ⟨hres.1, hres.2⟩

/-- C8 witness: the characterization applied to the closed empty string
`"\"\""`. -/
theorem c8_string_stop_characterization_witness :
    (⟨[34, 34], 2⟩ : Tokenizer).input = (⟨[34, 34], 0⟩ : Tokenizer).input ∧
    ((TokenType.StringLiteral = TokenType.StringLiteral ∧
      (∃ body, TokenValue.str [] = TokenValue.str body) ∧
      1 ≤ (⟨[34, 34], 2⟩ : Tokenizer).pos ∧
      (⟨[34, 34], 2⟩ : Tokenizer).input[(⟨[34, 34], 2⟩ : Tokenizer).pos - 1]? =
        some (byte_at ⟨[34, 34], 0⟩ 0)) ∨
     (TokenType.StringLiteral = TokenType.UnclosedStringLiteral ∧
      TokenValue.str [] = TokenValue.none ∧ byte_at ⟨[34, 34], 2⟩ 0 = 3)) :=
  c8_string_stop_characterization.2.2 10 ⟨[34, 34], 0⟩ .StringLiteral
    (.str []) ⟨[34, 34], 2⟩ (.inl rfl) rfl

/-! ## Cursor monotonicity and emitted kinds of the sub-scanners -/

theorem string_loop_iter_mono {d : Nat} {m : Nat}
    (ih : ∀ (t : Tokenizer) (acc : List Nat) (k : TokenType) (v : TokenValue)
      (t2 : Tokenizer), string_loop d m t acc = .done ((k, v), t2) →
      t.pos ≤ t2.pos ∧ (k = .StringLiteral ∨ k = .UnclosedStringLiteral))
    (t1 : Tokenizer) (acc1 : List Nat) (k : TokenType) (v : TokenValue)
    (t2 : Tokenizer)
    (h : (if byte_at t1 0 ≠ d ∧ byte_at t1 0 ≠ 3 then
            string_loop d m (advance t1 1) (acc1 ++ [byte_at t1 0])
          else if byte_at t1 0 = d then
            .done ((.StringLiteral, .str acc1), advance t1 1)
          else .done ((.UnclosedStringLiteral, .none), t1)) =
          .done ((k, v), t2)) :
    t1.pos ≤ t2.pos ∧ (k = .StringLiteral ∨ k = .UnclosedStringLiteral) := by
  by_cases hcont : byte_at t1 0 ≠ d ∧ byte_at t1 0 ≠ 3
  · rw [if_pos hcont] at h
    have hres := ih (advance t1 1) (acc1 ++ [byte_at t1 0]) k v t2 h
    exact ⟨le_trans (Nat.le_succ _) hres.1, hres.2⟩
  · rw [if_neg hcont] at h
    by_cases hdel : byte_at t1 0 = d
    · rw [if_pos hdel] at h
      injection h with h1
      injection h1 with hpair ht2
      injection hpair with hk hv
      subst hk
      subst ht2
      exact ⟨Nat.le_succ _, .inl rfl⟩
    · rw [if_neg hdel] at h
      injection h with h1
      injection h1 with hpair ht2
      injection hpair with hk hv
      subst hk
      subst ht2
      exact ⟨le_refl _, .inr rfl⟩

theorem string_loop_mono (d : Nat) :
    ∀ (n : Nat) (t : Tokenizer) (acc : List Nat) (k : TokenType)
      (v : TokenValue) (t2 : Tokenizer),
      string_loop d n t acc = .done ((k, v), t2) →
      t.pos ≤ t2.pos ∧ (k = .StringLiteral ∨ k = .UnclosedStringLiteral) := by
  intro n
  induction n with
  | zero =>
    intro t acc k v t2 h
    exact absurd h (by simp [string_loop])
  | succ m ih =>
    intro t acc k v t2 h
    simp only [string_loop] at h
    by_cases hbs : byte_at t 0 = 92
    · rw [if_pos hbs, if_pos hbs] at h
      have hres := string_loop_iter_mono ih (advance t 2)
        (acc ++ [byte_at t 0, byte_at t 1]) k v t2 h
      exact ⟨le_trans (Nat.le_add_right _ 2) hres.1, hres.2⟩
    · rw [if_neg hbs, if_neg hbs] at h
      exact string_loop_iter_mono ih t acc k v t2 h

theorem digit_loop_mono (hex : Bool) :
    ∀ (n : Nat) (t : Tokenizer) (acc w : List Nat) (t2 : Tokenizer),
      digit_loop hex n t acc = .done (w, t2) → t.pos ≤ t2.pos := by
  intro n
  induction n with
  | zero =>
    intro t acc w t2 h
    exact absurd h (by simp [digit_loop])
  | succ m ih =>
    intro t acc w t2 h
    simp only [digit_loop] at h
    split at h
    · exact le_trans (Nat.le_succ _) (ih _ _ _ _ h)
    · split at h
      · exact le_trans (Nat.le_succ _) (ih _ _ _ _ h)
      · split at h
        · split at h
          · have hres := ih _ _ _ _ h
            exact le_trans (by omega : t.pos ≤ t.pos + 1 + 1) hres
          · exact le_trans (Nat.le_succ _) (ih _ _ _ _ h)
        · injection h with h1
          injection h1 with hw ht2
          subst ht2
          exact le_refl _

theorem ident_loop_mono :
    ∀ (n : Nat) (t : Tokenizer) (acc w : List Nat) (t2 : Tokenizer),
      ident_loop n t acc = .done (w, t2) → t.pos ≤ t2.pos := by
  intro n
  induction n with
  | zero =>
    intro t acc w t2 h
    exact absurd h (by simp [ident_loop])
  | succ m ih =>
    intro t acc w t2 h
    simp only [ident_loop] at h
    split at h
    · exact le_trans (Nat.le_succ _) (ih _ _ _ _ h)
    · injection h with h1
      injection h1 with hw ht2
      subst ht2
      exact le_refl _

theorem single_loop_mono :
    ∀ (n : Nat) (t : Tokenizer) (acc w : List Nat) (t2 : Tokenizer),
      single_comment_loop n t acc = .done (w, t2) → t.pos ≤ t2.pos := by
  intro n
  induction n with
  | zero =>
    intro t acc w t2 h
    exact absurd h (by simp [single_comment_loop])
  | succ m ih =>
    intro t acc w t2 h
    simp only [single_comment_loop] at h
    split at h
    · exact le_trans (Nat.le_succ _) (ih _ _ _ _ h)
    · injection h with h1
      injection h1 with hw ht2
      subst ht2
      exact Nat.le_succ _

theorem multi_loop_mono :
    ∀ (n : Nat) (t : Tokenizer) (acc w : List Nat) (t2 : Tokenizer),
      multi_comment_loop n t acc = .done (w, t2) → t.pos ≤ t2.pos := by
  intro n
  induction n with
  | zero =>
    intro t acc w t2 h
    exact absurd h (by simp [multi_comment_loop])
  | succ m ih =>
    intro t acc w t2 h
    simp only [multi_comment_loop] at h
    split at h
    · exact le_trans (Nat.le_succ _) (ih _ _ _ _ h)
    · split at h
      · exact Res.noConfusion h
      · injection h with h1
        injection h1 with hw ht2
        subst ht2
        exact Nat.le_add_right _ 2
      · exact le_trans (Nat.le_succ _) (ih _ _ _ _ h)


theorem punct_token_facts {b : Nat} {k : TokenType}
    (h : punct_token b = some k) : k ≠ .Eof ∧ k ≠ .Whitespace := by
  unfold punct_token at h
  by_cases c1 : b = 59
  · rw [if_pos c1] at h
    injection h with hk
    subst hk
    exact ⟨by decide, by decide⟩
  · rw [if_neg c1] at h
    by_cases c2 : b = 44
    · rw [if_pos c2] at h
      injection h with hk
      subst hk
      exact ⟨by decide, by decide⟩
    · rw [if_neg c2] at h
      by_cases c3 : b = 38
      · rw [if_pos c3] at h
        injection h with hk
        subst hk
        exact ⟨by decide, by decide⟩
      · rw [if_neg c3] at h
        by_cases c4 : b = 124
        · rw [if_pos c4] at h
          injection h with hk
          subst hk
          exact ⟨by decide, by decide⟩
        · rw [if_neg c4] at h
          by_cases c5 : b = 40
          · rw [if_pos c5] at h
            injection h with hk
            subst hk
            exact ⟨by decide, by decide⟩
          · rw [if_neg c5] at h
            by_cases c6 : b = 41
            · rw [if_pos c6] at h
              injection h with hk
              subst hk
              exact ⟨by decide, by decide⟩
            · rw [if_neg c6] at h
              by_cases c7 : b = 93
              · rw [if_pos c7] at h
                injection h with hk
                subst hk
                exact ⟨by decide, by decide⟩
              · rw [if_neg c7] at h
                by_cases c8 : b = 123
                · rw [if_pos c8] at h
                  injection h with hk
                  subst hk
                  exact ⟨by decide, by decide⟩
                · rw [if_neg c8] at h
                  by_cases c9 : b = 125
                  · rw [if_pos c9] at h
                    injection h with hk
                    subst hk
                    exact ⟨by decide, by decide⟩
                  · rw [if_neg c9] at h
                    by_cases c10 : b = 43
                    · rw [if_pos c10] at h
                      injection h with hk
                      subst hk
                      exact ⟨by decide, by decide⟩
                    · rw [if_neg c10] at h
                      by_cases c11 : b = 42
                      · rw [if_pos c11] at h
                        injection h with hk
                        subst hk
                        exact ⟨by decide, by decide⟩
                      · rw [if_neg c11] at h
                        by_cases c12 : b = 47
                        · rw [if_pos c12] at h
                          injection h with hk
                          subst hk
                          exact ⟨by decide, by decide⟩
                        · rw [if_neg c12] at h
                          by_cases c13 : b = 37
                          · rw [if_pos c13] at h
                            injection h with hk
                            subst hk
                            exact ⟨by decide, by decide⟩
                          · rw [if_neg c13] at h
                            by_cases c14 : b = 94
                            · rw [if_pos c14] at h
                              injection h with hk
                              subst hk
                              exact ⟨by decide, by decide⟩
                            · rw [if_neg c14] at h
                              by_cases c15 : b = 35
                              · rw [if_pos c15] at h
                                injection h with hk
                                subst hk
                                exact ⟨by decide, by decide⟩
                              · rw [if_neg c15] at h
                                exact Option.noConfusion h

theorem convert_to_token_type_facts {w : List Nat} {k : TokenType}
    (h : convert_to_token_type w = some k) : k ≠ .Eof ∧ k ≠ .Whitespace := by
  unfold convert_to_token_type at h
  by_cases c1 : w = [97, 110, 100]
  · rw [if_pos c1] at h
    injection h with hk
    subst hk
    exact ⟨by decide, by decide⟩
  · rw [if_neg c1] at h
    by_cases c2 : w = [103, 111, 116, 111]
    · rw [if_pos c2] at h
      injection h with hk
      subst hk
      exact ⟨by decide, by decide⟩
    · rw [if_neg c2] at h
      by_cases c3 : w = [102, 117, 110, 99, 116, 105, 111, 110]
      · rw [if_pos c3] at h
        injection h with hk
        subst hk
        exact ⟨by decide, by decide⟩
      · rw [if_neg c3] at h
        by_cases c4 : w = [101, 110, 100]
        · rw [if_pos c4] at h
          injection h with hk
          subst hk
          exact ⟨by decide, by decide⟩
        · rw [if_neg c4] at h
          by_cases c5 : w = [102, 97, 108, 115, 101]
          · rw [if_pos c5] at h
            injection h with hk
            subst hk
            exact ⟨by decide, by decide⟩
          · rw [if_neg c5] at h
            by_cases c6 : w = [102, 111, 114]
            · rw [if_pos c6] at h
              injection h with hk
              subst hk
              exact ⟨by decide, by decide⟩
            · rw [if_neg c6] at h
              by_cases c7 : w = [101, 108, 115, 101]
              · rw [if_pos c7] at h
                injection h with hk
                subst hk
                exact ⟨by decide, by decide⟩
              · rw [if_neg c7] at h
                by_cases c8 : w = [101, 108, 115, 101, 105, 102]
                · rw [if_pos c8] at h
                  injection h with hk
                  subst hk
                  exact ⟨by decide, by decide⟩
                · rw [if_neg c8] at h
                  by_cases c9 : w = [100, 111]
                  · rw [if_pos c9] at h
                    injection h with hk
                    subst hk
                    exact ⟨by decide, by decide⟩
                  · rw [if_neg c9] at h
                    by_cases c10 : w = [98, 114, 101, 97, 107]
                    · rw [if_pos c10] at h
                      injection h with hk
                      subst hk
                      exact ⟨by decide, by decide⟩
                    · rw [if_neg c10] at h
                      by_cases c11 : w = [108, 111, 99, 97, 108]
                      · rw [if_pos c11] at h
                        injection h with hk
                        subst hk
                        exact ⟨by decide, by decide⟩
                      · rw [if_neg c11] at h
                        by_cases c12 : w = [105, 102]
                        · rw [if_pos c12] at h
                          injection h with hk
                          subst hk
                          exact ⟨by decide, by decide⟩
                        · rw [if_neg c12] at h
                          by_cases c13 : w = [105, 110]
                          · rw [if_pos c13] at h
                            injection h with hk
                            subst hk
                            exact ⟨by decide, by decide⟩
                          · rw [if_neg c13] at h
                            by_cases c14 : w = [110, 105, 108]
                            · rw [if_pos c14] at h
                              injection h with hk
                              subst hk
                              exact ⟨by decide, by decide⟩
                            · rw [if_neg c14] at h
                              by_cases c15 : w = [110, 111, 116]
                              · rw [if_pos c15] at h
                                injection h with hk
                                subst hk
                                exact ⟨by decide, by decide⟩
                              · rw [if_neg c15] at h
                                by_cases c16 : w = [114, 101, 112, 101, 97, 116]
                                · rw [if_pos c16] at h
                                  injection h with hk
                                  subst hk
                                  exact ⟨by decide, by decide⟩
                                · rw [if_neg c16] at h
                                  by_cases c17 : w = [111, 114]
                                  · rw [if_pos c17] at h
                                    injection h with hk
                                    subst hk
                                    exact ⟨by decide, by decide⟩
                                  · rw [if_neg c17] at h
                                    by_cases c18 : w = [116, 104, 101, 110]
                                    · rw [if_pos c18] at h
                                      injection h with hk
                                      subst hk
                                      exact ⟨by decide, by decide⟩
                                    · rw [if_neg c18] at h
                                      by_cases c19 : w = [116, 114, 117, 101]
                                      · rw [if_pos c19] at h
                                        injection h with hk
                                        subst hk
                                        exact ⟨by decide, by decide⟩
                                      · rw [if_neg c19] at h
                                        by_cases c20 : w = [119, 104, 105, 108, 101]
                                        · rw [if_pos c20] at h
                                          injection h with hk
                                          subst hk
                                          exact ⟨by decide, by decide⟩
                                        · rw [if_neg c20] at h
                                          by_cases c21 : w = [117, 110, 116, 105, 108]
                                          · rw [if_pos c21] at h
                                            injection h with hk
                                            subst hk
                                            exact ⟨by decide, by decide⟩
                                          · rw [if_neg c21] at h
                                            by_cases c22 : w = [114, 101, 116, 117, 114, 110]
                                            · rw [if_pos c22] at h
                                              injection h with hk
                                              subst hk
                                              exact ⟨by decide, by decide⟩
                                            · rw [if_neg c22] at h
                                              exact Option.noConfusion h

theorem read_digit_facts {fuel : Nat} {t : Tokenizer} {k : TokenType}
    {v : TokenValue} {t2 : Tokenizer}
    (h : read_digit fuel t = .done ((k, v), t2)) :
    t.pos ≤ t2.pos ∧ (k = .Int ∨ k = .Float ∨ k = .Unidentified) := by
  simp only [read_digit] at h
  split at h
  case h_1 numStr t' heq =>
    have hmono : t.pos ≤ t'.pos := by
      refine le_trans ?_ (digit_loop_mono _ _ _ _ _ _ heq)
      split <;> simp [advance]
    split at h <;>
      (injection h with h1; injection h1 with hpair ht2;
        injection hpair with hk hv; subst hk; subst ht2)
    · exact ⟨hmono, .inl rfl⟩
    · exact ⟨hmono, .inr (.inl rfl)⟩
    · exact ⟨hmono, .inr (.inr rfl)⟩
  case h_2 => exact Res.noConfusion h
  case h_3 => exact Res.noConfusion h

theorem read_single_facts {fuel : Nat} {t : Tokenizer} {k : TokenType}
    {v : TokenValue} {t2 : Tokenizer}
    (h : read_single_line_comment fuel t = .done ((k, v), t2)) :
    t.pos ≤ t2.pos ∧ k = .SingleComment := by
  unfold read_single_line_comment at h
  split at h
  case h_1 acc t' heq =>
    injection h with h1
    injection h1 with hpair ht2
    injection hpair with hk hv
    subst hk
    subst ht2
    exact ⟨single_loop_mono _ _ _ _ _ heq, rfl⟩
  case h_2 => exact Res.noConfusion h
  case h_3 => exact Res.noConfusion h

theorem read_multi_facts {fuel : Nat} {t : Tokenizer} {k : TokenType}
    {v : TokenValue} {t2 : Tokenizer}
    (h : read_multi_line_comment fuel t = .done ((k, v), t2)) :
    t.pos ≤ t2.pos ∧ k = .MultiLineComment := by
  unfold read_multi_line_comment at h
  split at h
  case h_1 acc t' heq =>
    injection h with h1
    injection h1 with hpair ht2
    injection hpair with hk hv
    subst hk
    subst ht2
    exact ⟨multi_loop_mono _ _ _ _ _ heq, rfl⟩
  case h_2 => exact Res.noConfusion h
  case h_3 => exact Res.noConfusion h

theorem read_string_facts {fuel : Nat} {t : Tokenizer} {k : TokenType}
    {v : TokenValue} {t2 : Tokenizer}
    (h : read_string fuel t = .done ((k, v), t2)) :
    t.pos ≤ t2.pos ∧ (k = .StringLiteral ∨ k = .UnclosedStringLiteral) := by
  unfold read_string at h
  have hres := string_loop_mono (byte_at t 0) fuel (advance t 1) [] k v t2 h
  exact ⟨le_trans (Nat.le_succ _) hres.1, hres.2⟩

theorem read_other_facts {fuel : Nat} {t : Tokenizer} {k : TokenType}
    {v : TokenValue} {t2 : Tokenizer}
    (h : read_other_tokens fuel t = .done ((k, v), t2)) :
    t.pos ≤ t2.pos ∧ k ≠ .Eof ∧ k ≠ .Whitespace := by
  unfold read_other_tokens at h
  split at h
  case h_1 tt heq =>
    injection h with h1
    injection h1 with hpair ht2
    injection hpair with hk hv
    subst hk
    subst ht2
    exact ⟨Nat.le_succ _, punct_token_facts heq⟩
  case h_2 hnone =>
    split at h
    · split at h
      case h_1 w t' heq2 =>
        have hmono : t.pos ≤ t'.pos :=
          le_trans (Nat.le_succ _) (ident_loop_mono _ _ _ _ _ heq2)
        split at h <;>
          (injection h with h1; injection h1 with hpair ht2;
            injection hpair with hk hv; subst hk; subst ht2)
        case h_1 tt heq3 =>
          exact ⟨hmono, convert_to_token_type_facts heq3⟩
        case h_2 =>
          exact ⟨hmono, by decide, by decide⟩
      case h_2 => exact Res.noConfusion h
      case h_3 => exact Res.noConfusion h
    · injection h with h1
      injection h1 with hpair ht2
      injection hpair with hk hv
      subst hk
      subst ht2
      exact ⟨le_refl _, by decide, by decide⟩

theorem if_starts_done {α : Type} {t : Tokenizer} {nd : List Nat}
    {a b : Res α} {x : α} (h : if_starts t nd a b = .done x) :
    a = .done x ∨ b = .done x := by
  unfold if_starts at h
  split at h
  · exact Res.noConfusion h
  · exact .inl h
  · exact .inr h

theorem done_tok_facts {t t2 : Tokenizer} {k X : TokenType}
    {v w : TokenValue} {m : Nat}
    (h : (Res.done ((X, w), advance t m) :
      Res ((TokenType × TokenValue) × Tokenizer)) = .done ((k, v), t2))
    (hX1 : X ≠ TokenType.Eof) (hX2 : X ≠ TokenType.Whitespace) :
    t.pos ≤ t2.pos ∧ k ≠ .Eof ∧
      (k = .Whitespace → is_whitespace t = true ∨ is_escape_char t = true) := by
  injection h with h1
  injection h1 with hpair ht2
  injection hpair with hk hv
  subst hk
  subst ht2
  exact ⟨Nat.le_add_right _ m, hX1, fun hw => absurd hw hX2⟩

theorem facts_of_kinds {t t2 : Tokenizer} {k : TokenType}
    (hmono : t.pos ≤ t2.pos) (hne : k ≠ .Eof) (hnw : k ≠ .Whitespace) :
    t.pos ≤ t2.pos ∧ k ≠ .Eof ∧
      (k = .Whitespace → is_whitespace t = true ∨ is_escape_char t = true) :=
  ⟨hmono, hne, fun hw => absurd hw hnw⟩

theorem int_float_unid_kinds {k : TokenType}
    (h : k = .Int ∨ k = .Float ∨ k = .Unidentified) :
    k ≠ .Eof ∧ k ≠ .Whitespace := by
  rcases h with h | h | h <;> subst h <;> exact ⟨by decide, by decide⟩

theorem string_kinds {k : TokenType}
    (h : k = .StringLiteral ∨ k = .UnclosedStringLiteral) :
    k ≠ .Eof ∧ k ≠ .Whitespace := by
  rcases h with h | h <;> subst h <;> exact ⟨by decide, by decide⟩

/-- Master case analysis over the dispatch: every token `next_token`
returns has a cursor at or beyond the starting cursor, is never `Eof`, and
is `Whitespace` only when the starting byte was in the whitespace or escape
class. -/
theorem next_token_done_facts {fuel : Nat} {t : Tokenizer} {k : TokenType}
    {v : TokenValue} {t2 : Tokenizer}
    (h : next_token fuel t = .done ((k, v), t2)) :
    t.pos ≤ t2.pos ∧ k ≠ .Eof ∧
      (k = .Whitespace → is_whitespace t = true ∨ is_escape_char t = true) := by
  unfold next_token at h
  by_cases hws : is_whitespace t = true
  · rw [if_pos hws] at h
    injection h with h1
    injection h1 with hpair ht2
    injection hpair with hk hv
    subst hk
    subst ht2
    exact ⟨Nat.le_succ _, by decide, fun _ => .inl hws⟩
  · rw [if_neg hws] at h
    by_cases hdig : is_digit (byte_at t 0) = true
    · rw [if_pos hdig] at h
      have hres := read_digit_facts h
      have hk := int_float_unid_kinds hres.2
      exact facts_of_kinds hres.1 hk.1 hk.2
    · rw [if_neg hdig] at h
      by_cases hesc : is_escape_char t = true
      · rw [if_pos hesc] at h
        injection h with h1
        injection h1 with hpair ht2
        injection hpair with hk hv
        subst hk
        subst ht2
        exact ⟨Nat.le_succ _, by decide, fun _ => .inr hesc⟩
      · rw [if_neg hesc] at h
        by_cases hq : byte_at t 0 = 34 ∨ byte_at t 0 = 39
        · rw [if_pos hq] at h
          have hres := read_string_facts h
          have hk := string_kinds hres.2
          exact facts_of_kinds hres.1 hk.1 hk.2
        · rw [if_neg hq] at h
          by_cases h62 : byte_at t 0 = 62
          · rw [if_pos h62] at h
            rcases if_starts_done h with h | h
            · exact done_tok_facts h (by decide) (by decide)
            · rcases if_starts_done h with h | h
              · exact done_tok_facts h (by decide) (by decide)
              · exact done_tok_facts h (by decide) (by decide)
          · rw [if_neg h62] at h
            by_cases h46 : byte_at t 0 = 46
            · rw [if_pos h46] at h
              rcases if_starts_done h with h | h
              · exact done_tok_facts h (by decide) (by decide)
              · rcases if_starts_done h with h | h
                · exact done_tok_facts h (by decide) (by decide)
                · by_cases hd1 : is_digit (byte_at t 1) = true
                  · rw [if_pos hd1] at h
                    have hres := read_digit_facts h
                    have hk := int_float_unid_kinds hres.2
                    exact facts_of_kinds hres.1 hk.1 hk.2
                  · rw [if_neg hd1] at h
                    exact done_tok_facts h (by decide) (by decide)
            · rw [if_neg h46] at h
              by_cases h61 : byte_at t 0 = 61
              · rw [if_pos h61] at h
                rcases if_starts_done h with h | h
                · exact done_tok_facts h (by decide) (by decide)
                · exact done_tok_facts h (by decide) (by decide)
              · rw [if_neg h61] at h
                by_cases h60 : byte_at t 0 = 60
                · rw [if_pos h60] at h
                  rcases if_starts_done h with h | h
                  · exact done_tok_facts h (by decide) (by decide)
                  · rcases if_starts_done h with h | h
                    · exact done_tok_facts h (by decide) (by decide)
                    · exact done_tok_facts h (by decide) (by decide)
                · rw [if_neg h60] at h
                  by_cases h126 : byte_at t 0 = 126
                  · rw [if_pos h126] at h
                    rcases if_starts_done h with h | h
                    · exact done_tok_facts h (by decide) (by decide)
                    · exact done_tok_facts h (by decide) (by decide)
                  · rw [if_neg h126] at h
                    by_cases h58 : byte_at t 0 = 58
                    · rw [if_pos h58] at h
                      rcases if_starts_done h with h | h
                      · exact done_tok_facts h (by decide) (by decide)
                      · exact done_tok_facts h (by decide) (by decide)
                    · rw [if_neg h58] at h
                      by_cases h91 : byte_at t 0 = 91
                      · rw [if_pos h91] at h
                        rcases if_starts_done h with h | h
                        · have hres := read_multi_facts h
                          refine facts_of_kinds
                            (le_trans (Nat.le_add_right _ 2) hres.1) ?_ ?_ <;>
                            rw [hres.2] <;> decide
                        · exact done_tok_facts h (by decide) (by decide)
                      · rw [if_neg h91] at h
                        by_cases h45 : byte_at t 0 = 45
                        · rw [if_pos h45] at h
                          rcases if_starts_done h with h | h
                          · have hres := read_multi_facts h
                            refine facts_of_kinds
                              (le_trans (Nat.le_add_right _ 4) hres.1) ?_ ?_ <;>
                              rw [hres.2] <;> decide
                          · rcases if_starts_done h with h | h
                            · have hres := read_single_facts h
                              refine facts_of_kinds
                                (le_trans (Nat.le_add_right _ 2) hres.1) ?_ ?_ <;>
                                rw [hres.2] <;> decide
                            · exact done_tok_facts h (by decide) (by decide)
                        · rw [if_neg h45] at h
                          have hres := read_other_facts h
                          exact facts_of_kinds hres.1 hres.2.1 hres.2.2

/-! ## C3: the driver terminates with exactly one Eof -/

/-- C3: confirmed.  Whenever the driver loop returns a token list, that
list is a prefix of non-`Eof` tokens followed by exactly one `Eof` pair at
the very end: the sub-scanners never produce `Eof`, and the driver appends
it once after the loop.  The hypothesis `run_tokenizer fuel t = .done toks`
records that the pass produced a sequence at all: on inputs where the
lexer makes no progress (see C1) or a sub-scan diverges or panics (see C4
and C9) no sequence is ever produced. -/
theorem c3_driver_terminates_with_single_eof :
    ∀ (fuel : Nat) (t : Tokenizer) (toks : List (TokenType × TokenValue)),
      run_tokenizer fuel t = .done toks →
      ∃ pre, toks = pre ++ [(TokenType.Eof, TokenValue.none)] ∧
        ∀ p ∈ pre, p.1 ≠ TokenType.Eof := by
  intro fuel
  induction fuel with
  | zero =>
    intro t toks h
    exact absurd h (by simp [run_tokenizer])
  | succ n ih =>
    intro t toks h
    simp only [run_tokenizer] at h
    split at h
    · injection h with h1
      exact ⟨[], h1.symm, by simp⟩
    · split at h
      case h_1 tok t' heq =>
        obtain ⟨k0, v0⟩ := tok
        split at h
        case h_1 toks0 heq2 =>
          injection h with h1
          obtain ⟨pre, hpre, hall⟩ := ih t' toks0 heq2
          refine ⟨(k0, v0) :: pre, ?_, ?_⟩
          · rw [← h1, hpre]
            rfl
          · intro p hp
            rcases List.mem_cons.mp hp with hp | hp
            · subst hp
              exact (next_token_done_facts heq).2.1
            · exact hall p hp
        case h_2 => exact Res.noConfusion h
        case h_3 => exact Res.noConfusion h
      case h_2 => exact Res.noConfusion h
      case h_3 => exact Res.noConfusion h

/-- C3 witness: lexing the one-byte identifier input `"a"` produces
`Identifier` then the single trailing `Eof`. -/
theorem c3_driver_terminates_with_single_eof_witness :
    ∃ pre, [(TokenType.Identifier, TokenValue.str [97]),
        (TokenType.Eof, TokenValue.none)] =
      pre ++ [(TokenType.Eof, TokenValue.none)] ∧
      ∀ p ∈ pre, p.1 ≠ TokenType.Eof :=
  c3_driver_terminates_with_single_eof 3 ⟨[97], 0⟩
    [(TokenType.Identifier, TokenValue.str [97]),
      (TokenType.Eof, TokenValue.none)] rfl

/-! ## C5: monotonicity of the cursor -/

/-- C5: amended and proved.  `0 ≤ position` holds by construction (the
cursor is a natural number) and the cursor never moves backwards across
any `next_token` call; the claimed upper bound `position ≤ len(input)` is
refuted by `c5_counterexample_pos_exceeds_length`. -/
theorem c5_position_monotone :
    ∀ (fuel : Nat) (t : Tokenizer) (k : TokenType) (v : TokenValue)
      (t2 : Tokenizer), next_token fuel t = .done ((k, v), t2) →
      t.pos ≤ t2.pos :=
  fun _ _ _ _ _ h => (next_token_done_facts h).1

/-- C5 witness: lexing `";"` moves the cursor from 0 to 1. -/
theorem c5_position_monotone_witness :
    (⟨[59], 0⟩ : Tokenizer).pos ≤ (⟨[59], 1⟩ : Tokenizer).pos :=
  c5_position_monotone 1 ⟨[59], 0⟩ .Semicolon .none ⟨[59], 1⟩ rfl

/-! ## C6: the escape class and the two whitespace-skip paths -/

/-- C6: amended and proved.  The escape class is the seven bytes 0x41
(`A`), LF, CR, TAB, backslash, NUL, DEL (`is_escape_char`).  Every byte in
the class makes `next_token` advance one byte and emit `Whitespace`, and
conversely `Whitespace` is emitted only when the current byte is in the
whitespace class or the escape class.  The claim's six-byte class is
refuted by `c6_counterexample_A_skipped_as_whitespace`. -/
theorem c6_escape_class_whitespace_paths :
    (∀ (fuel : Nat) (t : Tokenizer), is_escape_char t = true →
      next_token fuel t = .done ((.Whitespace, .none), advance t 1)) ∧
    (∀ (fuel : Nat) (t : Tokenizer) (k : TokenType) (v : TokenValue)
      (t2 : Tokenizer), next_token fuel t = .done ((k, v), t2) →
      k = .Whitespace → is_whitespace t = true ∨ is_escape_char t = true) := by
  constructor
  · intro fuel t hesc
    unfold next_token
    by_cases hws : is_whitespace t = true
    · rw [if_pos hws]
    · rw [if_neg hws]
      have hdig : ¬ is_digit (byte_at t 0) = true := by
        unfold is_escape_char at hesc
        simp only [Bool.or_eq_true, decide_eq_true_eq] at hesc
        unfold is_digit
        simp only [Bool.and_eq_true, decide_eq_true_eq]
        intro hcon
        omega
      rw [if_neg hdig, if_pos hesc]
  · intro fuel t k v t2 h hk
    exact (next_token_done_facts h).2.2 hk

/-- C6 witness: part one of the amended claim applied to a newline. -/
theorem c6_escape_class_whitespace_paths_witness :
    next_token 1 ⟨[10], 0⟩ =
      .done ((.Whitespace, .none), advance ⟨[10], 0⟩ 1) :=
  c6_escape_class_whitespace_paths.1 1 ⟨[10], 0⟩ rfl
